import Mathlib

/-!
Shallow embedding of the early-termination poll core of
`snow/consensus/snowman/poll/analyzer.go` (type `earlyTermNoTraversalPoll`,
its factory and its per-reason metrics), together with proofs of the
specification's claims about it.

Validator ids (`ids.NodeID`) and vote ids (`ids.ID`) are opaque identifiers
with equality only; both are modelled as `Nat`.  Go `int` thresholds are
modelled as `Nat`: the spec requires `alpha_preference` and
`alpha_confidence` positive and all counts are non-negative, so no value the
claims quantify over is negative.
-/

namespace AvalanchePoll

/-- Modelled from the spec: the multiset abstraction `bag.Bag[T]` (spec §3)
is consumed by the poll but its implementation is not among the source
files; a bag is modelled as a list of elements, `count` the number of
occurrences.  The operations below follow the spec contract: `Len` is the
sum of counts, `Remove` drops all occurrences, `Mode` returns a key with
the maximum count and that count (0 on the empty bag). -/
abbrev Bag (α : Type) := List α

namespace Bag

variable {α : Type} [DecidableEq α]

/-- Total number of elements, counted with multiplicity (`Bag.Len`). -/
def Len (b : Bag α) : Nat := b.length

/-- Number of occurrences of `a` (`Bag.Count`). -/
def Count (b : Bag α) (a : α) : Nat := b.count a

/-- Add `n` occurrences of `a` (`Bag.AddCount`; adding a non-positive count
is a no-op in the source, and adding zero copies is already the identity
here). -/
def AddCount (b : Bag α) (a : α) (n : Nat) : Bag α := List.replicate n a ++ b

/-- Remove all occurrences of `a` (`Bag.Remove`). -/
def Remove (b : Bag α) (a : α) : Bag α := b.filter (fun x => x ≠ a)

/-- Frequency of a most-frequent element; 0 on the empty bag. -/
def ModeFreq (b : Bag α) : Nat := (b.map (fun a => b.count a)).foldr max 0

/-- A key with the maximum count (ties broken deterministically but
unspecified, as the spec allows). -/
def ModeKey [Inhabited α] (b : Bag α) : α :=
  b.foldr (fun a best => if b.count best ≤ b.count a then a else best) default

/-- The pair returned by `Bag.Mode`: a most-frequent key and its
frequency.  Only the frequency is consulted by the poll. -/
def Mode [Inhabited α] (b : Bag α) : α × Nat := (ModeKey b, ModeFreq b)

end Bag

/-- Validator identifier (`ids.NodeID`), opaque. -/
abbrev NodeID := Nat

/-- Vote identifier (`ids.ID`), opaque. -/
abbrev ID := Nat

/-- Termination reasons, as the integer codes `finishedAndReason` returns:
0 none/latched, 1 exhausted, 2 early fail, 3 early alpha-preference,
4 early alpha-confidence. -/
abbrev Reason := Nat

/-- State of an `earlyTermNoTraversalPoll`.  The `start` timestamp is not
modelled (real time); each metric observation (one reason-counter increment
plus one duration addition, always emitted together by the `observe*`
helpers) is modelled as one entry pushed onto `observed`, most recent
first. -/
structure Poll where
  votes : Bag ID
  polled : Bag NodeID
  alphaPreference : Nat
  alphaConfidence : Nat
  confidences : List Nat
  finished : Bool
  observed : List Reason
  deriving Repr, DecidableEq

namespace Poll

/-- Register a response for this poll (`earlyTermNoTraversalPoll.Vote`):
read the validator's outstanding count, zero it, and credit the vote with
that count.  Note the source does not consult the `finished` latch here. -/
def Vote (p : Poll) (vdr : NodeID) (vote : ID) : Poll :=
  let count := p.polled.Count vdr
  { p with
    polled := p.polled.Remove vdr
    votes := p.votes.AddCount vote count }

/-- Drop any future response from `vdr` (`earlyTermNoTraversalPoll.Drop`). -/
def Drop (p : Poll) (vdr : NodeID) : Poll :=
  { p with polled := p.polled.Remove vdr }

/-- Decision part of `shouldTerminateEarlyErrDriven` (the metric emission
it performs is accounted for by the caller below, which pushes exactly one
observation for the returned reason, as the source does on each `true`
path). -/
def shouldTerminateEarlyErrDriven (p : Poll) (freq maxPossibleVotes : Nat) :
    Bool × Reason :=
  if freq ≥ p.confidences.getLastD 0 then
    (true, 4)
  else if freq < p.alphaPreference then
    (false, 0)
  else if maxPossibleVotes < p.confidences.headD 0 then
    (true, 3)
  else if (List.range (p.confidences.length - 1)).any (fun i =>
      decide (freq ≥ p.confidences.getD i 0) &&
      decide (maxPossibleVotes < p.confidences.getD (i + 1) 0)) then
    (true, 3)
  else
    (false, 0)

/-- The state-passing rendering of
`earlyTermNoTraversalPoll.finishedAndReason`: returns the updated poll, the
boolean result and the reason code. -/
def finishedAndReason (p : Poll) : Poll × Bool × Reason :=
  if p.finished then
    (p, true, 0)
  else
    let remaining := p.polled.Len
    if remaining = 0 then
      ({ p with finished := true, observed := 1 :: p.observed }, true, 1)
    else
      let received := p.votes.Len
      let maxPossibleVotes := received + remaining
      if maxPossibleVotes < p.alphaPreference then
        ({ p with finished := true, observed := 2 :: p.observed }, true, 2)
      else
        let freq := p.votes.ModeFreq
        if 0 < p.confidences.length then
          let r := p.shouldTerminateEarlyErrDriven freq maxPossibleVotes
          if r.1 then
            ({ p with finished := true, observed := r.2 :: p.observed },
             true, r.2)
          else
            (p, false, 0)
        else if freq ≥ p.alphaPreference ∧ maxPossibleVotes < p.alphaConfidence then
          ({ p with finished := true, observed := 3 :: p.observed }, true, 3)
        else if freq ≥ p.alphaConfidence then
          ({ p with finished := true, observed := 4 :: p.observed }, true, 4)
        else
          (p, false, 0)

/-- The boolean `Finished` of the source, with its state update. -/
def Finished (p : Poll) : Poll × Bool :=
  let r := p.finishedAndReason
  (r.1, r.2.1)

/-- Result of the poll (`earlyTermNoTraversalPoll.Result`): the vote tally. -/
def Result (p : Poll) : Bag ID := p.votes

end Poll

/-- One registry outcome for one collector registration
(`prometheus.Registerer.Register`): success or an error message. -/
abbrev RegOutcome := Except String Unit

/-- Modelled from the spec: the metrics registry abstraction (spec §6), a
handle whose `register` returns success or failure; the prometheus library
is outside the source files.  The registry is represented by the outcomes
it gives the two registrations `newEarlyTermNoTraversalMetrics` performs,
in source order: first the `poll_count` counter vector, then the
`poll_duration` gauge vector. -/
structure Registerer where
  registerPollCountVec : RegOutcome
  registerPollDurationVec : RegOutcome

/-- Errors of factory construction, wrapping the registry's message as the
source wraps with `%w: %w`. -/
inductive FactoryError where
  | pollCountVectorMetrics (inner : String)
  | pollDurationVectorMetrics (inner : String)
  deriving Repr, DecidableEq

/-- The metrics handle: the eight per-reason observers carry no further
state here (observations are recorded on each poll's `observed` list). -/
structure Metrics where
  deriving Repr, DecidableEq

/-- Embedding of `newEarlyTermNoTraversalMetrics`: register the
`poll_count` counter vector, then the `poll_duration` gauge vector,
surfacing the first failure wrapped in its sentinel error. -/
def newEarlyTermNoTraversalMetrics (reg : Registerer) :
    Except FactoryError Metrics :=
  match reg.registerPollCountVec with
  | .error e => .error (.pollCountVectorMetrics e)
  | .ok _ =>
    match reg.registerPollDurationVec with
    | .error e => .error (.pollDurationVectorMetrics e)
    | .ok _ => .ok {}

/-- The `earlyTermNoTraversalFactory` state. -/
structure Factory where
  alphaPreference : Nat
  alphaConfidence : Nat
  alphaConfidences : List Nat
  metrics : Metrics
  deriving Repr, DecidableEq

/-- Embedding of `NewEarlyTermNoTraversalFactory`. -/
def NewEarlyTermNoTraversalFactory (alphaPreference alphaConfidence : Nat)
    (reg : Registerer) (alphaConfidences : List Nat) :
    Except FactoryError Factory :=
  match newEarlyTermNoTraversalMetrics reg with
  | .error e => .error e
  | .ok m =>
    .ok { alphaPreference := alphaPreference
          alphaConfidence := alphaConfidence
          alphaConfidences := alphaConfidences
          metrics := m }

/-- Embedding of `earlyTermNoTraversalFactory.New`: a total function — poll
construction never fails once the factory exists. -/
def Factory.New (f : Factory) (vdrs : Bag NodeID) : Poll :=
  { votes := []
    polled := vdrs
    alphaPreference := f.alphaPreference
    alphaConfidence := f.alphaConfidence
    confidences := f.alphaConfidences
    finished := false
    observed := [] }

/-- A fresh poll with the given parameters and outstanding multiset, as the
factory seeds it. -/
def mkPoll (alphaPreference alphaConfidence : Nat) (confidences : List Nat)
    (vdrs : Bag NodeID) : Poll :=
  { votes := []
    polled := vdrs
    alphaPreference := alphaPreference
    alphaConfidence := alphaConfidence
    confidences := confidences
    finished := false
    observed := [] }

/-- The operations the engine may drive a poll with. -/
inductive Op where
  | vote (vdr : NodeID) (id : ID)
  | drop (vdr : NodeID)
  | finished
  | result
  deriving Repr, DecidableEq

/-- One engine call against the poll state. -/
def stepOp (p : Poll) (op : Op) : Poll :=
  match op with
  | .vote vdr id => p.Vote vdr id
  | .drop vdr => p.Drop vdr
  | .finished => p.finishedAndReason.1
  | .result => p

/-- Run a call sequence left to right. -/
def run (p : Poll) (ops : List Op) : Poll := ops.foldl stepOp p

/-- The `(finished, reason)` pairs returned by the `Finished` calls of a
call sequence, in order. -/
def runOutputs (p : Poll) (ops : List Op) : List (Bool × Reason) :=
  match ops with
  | [] => []
  | .finished :: rest =>
    let r := p.finishedAndReason
    r.2 :: runOutputs r.1 rest
  | op :: rest => runOutputs (stepOp p op) rest

/-- Modelled from the claim wording (refinement reference): the
single-threshold termination cascade, evaluated in order with the first
match recorded as the reason. -/
def singleThresholdOutcome (remaining received freq alphaPreference
    alphaConfidence : Nat) : Bool × Reason :=
  if remaining = 0 then (true, 1)
  else if received + remaining < alphaPreference then (true, 2)
  else if freq ≥ alphaPreference ∧ received + remaining < alphaConfidence then
    (true, 3)
  else if freq ≥ alphaConfidence then (true, 4)
  else (false, 0)

/-- Modelled from the claim wording (refinement reference): the
error-driven termination cascade over confidences `C`, after the exhausted
and early-fail rules. -/
def errDrivenOutcome (remaining received freq alphaPreference : Nat)
    (C : List Nat) : Bool × Reason :=
  if remaining = 0 then (true, 1)
  else if received + remaining < alphaPreference then (true, 2)
  else if freq ≥ C.getLastD 0 then (true, 4)
  else if freq < alphaPreference then (false, 0)
  else if received + remaining < C.headD 0 then (true, 3)
  else if ∃ i, i < C.length - 1 ∧ freq ≥ C.getD i 0 ∧
      received + remaining < C.getD (i + 1) 0 then (true, 3)
  else (false, 0)

/-- Bounds-checked rendering of the threshold-gap loop of
`shouldTerminateEarlyErrDriven`: every slice access `confidences[i]` and
`confidences[i+1]` is performed with an optional lookup, and any
out-of-bounds access poisons the result to `none`. -/
def checkedGapScan (C : List Nat) (freq maxPossibleVotes : Nat) :
    Option Bool :=
  (List.range (C.length - 1)).foldr
    (fun i acc =>
      match C[i]?, C[i + 1]?, acc with
      | some ci, some ci1, some rest =>
        some ((decide (freq ≥ ci) && decide (maxPossibleVotes < ci1)) || rest)
      | _, _, _ => none)
    (some false)

/-- Bounds-checked rendering of `shouldTerminateEarlyErrDriven`: the
accesses `confidences[len(confidences)-1]` and `confidences[0]` of the
source become optional lookups, `none` signalling an out-of-bounds access
(a panic in the source). -/
def Poll.shouldTerminateEarlyErrDrivenChecked (p : Poll)
    (freq maxPossibleVotes : Nat) : Option (Bool × Reason) :=
  p.confidences.getLast?.bind fun last =>
    if freq ≥ last then some (true, 4)
    else if freq < p.alphaPreference then some (false, 0)
    else
      p.confidences.head?.bind fun first =>
        if maxPossibleVotes < first then some (true, 3)
        else
          (checkedGapScan p.confidences freq maxPossibleVotes).bind fun g =>
            if g then some (true, 3) else some (false, 0)

/-- Bounds-checked rendering of the decision of `finishedAndReason`:
`none` would mean some confidence-slice access was out of bounds. -/
def Poll.finishedAndReasonChecked (p : Poll) : Option (Bool × Reason) :=
  if p.finished then some (true, 0)
  else
    let remaining := p.polled.Len
    if remaining = 0 then some (true, 1)
    else
      let received := p.votes.Len
      let maxPossibleVotes := received + remaining
      if maxPossibleVotes < p.alphaPreference then some (true, 2)
      else
        let freq := p.votes.ModeFreq
        if 0 < p.confidences.length then
          p.shouldTerminateEarlyErrDrivenChecked freq maxPossibleVotes
        else if freq ≥ p.alphaPreference ∧
            maxPossibleVotes < p.alphaConfidence then some (true, 3)
        else if freq ≥ p.alphaConfidence then some (true, 4)
        else some (false, 0)

/-! Basic facts about the bag model. -/

namespace Bag

variable {α : Type} [DecidableEq α]

theorem count_le_Len (b : Bag α) (a : α) : b.Count a ≤ b.Len :=
  List.count_le_length a b

theorem foldr_max_le (l : List Nat) (n : Nat) (h : ∀ x ∈ l, x ≤ n) :
    l.foldr max 0 ≤ n := by
  induction l with
  | nil => exact Nat.zero_le n
  | cons x xs ih =>
    simp only [List.foldr_cons]
    exact max_le (h x (by simp)) (ih fun y hy => h y (by simp [hy]))

theorem modeFreq_le_Len (b : Bag α) : b.ModeFreq ≤ b.Len := by
  refine foldr_max_le _ _ ?_
  intro x hx
  rcases List.mem_map.mp hx with ⟨a, _, rfl⟩
  exact count_le_Len b a

theorem modeFreq_nil : Bag.ModeFreq ([] : Bag α) = 0 := rfl

theorem Len_remove_add_count (b : Bag α) (a : α) :
    (b.Remove a).Len + b.Count a = b.Len := by
  induction b with
  | nil => rfl
  | cons x xs ih =>
    by_cases hxa : x = a
    · subst hxa
      have h1 : Remove (x :: xs) x = Remove xs x := by
        simp [Remove, List.filter_cons]
      have h2 : Count (x :: xs) x = Count xs x + 1 := by
        simp [Count, List.count_cons]
      rw [show Len (x :: xs) = Len xs + 1 from rfl]
      rw [h1, h2]
      omega
    · have h1 : Remove (x :: xs) a = x :: Remove xs a := by
        simp [Remove, List.filter_cons, hxa]
      have h2 : Count (x :: xs) a = Count xs a := by
        simp [Count, List.count_cons, hxa]
      rw [h1, h2]
      rw [show Len (x :: Remove xs a) = Len (Remove xs a) + 1 from rfl]
      rw [show Len (x :: xs) = Len xs + 1 from rfl]
      omega

theorem count_remove_self (b : Bag α) (a : α) : (b.Remove a).Count a = 0 := by
  simp only [Remove, Count]
  rw [List.count_eq_zero]
  intro h
  have := List.of_mem_filter h
  simp at this

theorem count_remove_other (b : Bag α) (a x : α) (h : x ≠ a) :
    (b.Remove a).Count x = b.Count x := by
  simp only [Remove, Count]
  exact List.count_filter (by simpa using h)

theorem remove_of_count_zero (b : Bag α) (a : α) (h : b.Count a = 0) :
    b.Remove a = b := by
  have ha : a ∉ b := by
    simpa [Count, List.count_eq_zero] using h
  simp only [Remove]
  rw [List.filter_eq_self]
  intro x hx
  simp only [ne_eq, decide_eq_true_eq]
  rintro rfl
  exact ha hx

theorem count_addCount_self (b : Bag α) (a : α) (n : Nat) :
    (b.AddCount a n).Count a = b.Count a + n := by
  simp only [AddCount, Count]
  rw [List.count_append, List.count_replicate_self]
  omega

theorem count_addCount_other (b : Bag α) (a x : α) (n : Nat) (h : x ≠ a) :
    (b.AddCount a n).Count x = b.Count x := by
  simp only [AddCount, Count]
  rw [List.count_append, List.count_replicate]
  simp [h, Ne.symm h]

omit [DecidableEq α] in
theorem Len_addCount (b : Bag α) (a : α) (n : Nat) :
    (b.AddCount a n).Len = n + b.Len := by
  simp [AddCount, Len]

omit [DecidableEq α] in
theorem addCount_zero (b : Bag α) (a : α) : b.AddCount a 0 = b := rfl

end Bag

/-! Structural facts about `finishedAndReason` and the operation step. -/

namespace Poll

theorem finishedAndReason_of_finished (p : Poll) (h : p.finished = true) :
    p.finishedAndReason = (p, true, 0) := by
  unfold finishedAndReason
  rw [h]
  rfl

theorem finishedAndReason_cases (p : Poll) (h : p.finished = false) :
    (p.finishedAndReason.1 = p ∧ p.finishedAndReason.2.1 = false) ∨
    (p.finishedAndReason.1 =
        { p with finished := true,
                 observed := p.finishedAndReason.2.2 :: p.observed } ∧
      p.finishedAndReason.2.1 = true) := by
  unfold finishedAndReason
  rw [h]
  simp only [Bool.false_eq_true, if_false]
  split_ifs <;> simp

theorem finishedAndReason_preserves (p : Poll) :
    (p.finishedAndReason.1).votes = p.votes ∧
    (p.finishedAndReason.1).polled = p.polled ∧
    (p.finishedAndReason.1).alphaPreference = p.alphaPreference ∧
    (p.finishedAndReason.1).alphaConfidence = p.alphaConfidence ∧
    (p.finishedAndReason.1).confidences = p.confidences := by
  cases hf : p.finished
  · rcases p.finishedAndReason_cases hf with ⟨h1, _⟩ | ⟨h1, _⟩ <;>
      rw [h1] <;> simp
  · rw [p.finishedAndReason_of_finished hf]
    simp

theorem finishedAndReason_finished_mono (p : Poll) (h : p.finished = true) :
    (p.finishedAndReason.1).finished = true := by
  rw [p.finishedAndReason_of_finished h]
  exact h

theorem finishedAndReason_latches (p : Poll)
    (h : p.finishedAndReason.2.1 = true) :
    (p.finishedAndReason.1).finished = true := by
  cases hf : p.finished
  · rcases p.finishedAndReason_cases hf with ⟨_, h2⟩ | ⟨h1, _⟩
    · rw [h2] at h
      exact absurd h (by simp)
    · rw [h1]
  · exact p.finishedAndReason_finished_mono hf

theorem stepOp_finished_mono (p : Poll) (op : Op)
    (h : p.finished = true) : (stepOp p op).finished = true := by
  cases op with
  | vote vdr id => exact h
  | drop vdr => exact h
  | finished => exact p.finishedAndReason_finished_mono h
  | result => exact h

theorem run_finished_mono (p : Poll) (ops : List Op)
    (h : p.finished = true) : (run p ops).finished = true := by
  induction ops generalizing p with
  | nil => exact h
  | cons op rest ih => exact ih (stepOp p op) (p.stepOp_finished_mono op h)

theorem stepOp_params (p : Poll) (op : Op) :
    (stepOp p op).alphaPreference = p.alphaPreference ∧
    (stepOp p op).alphaConfidence = p.alphaConfidence ∧
    (stepOp p op).confidences = p.confidences := by
  cases op with
  | vote vdr id => exact ⟨rfl, rfl, rfl⟩
  | drop vdr => exact ⟨rfl, rfl, rfl⟩
  | finished =>
    obtain ⟨_, _, h3, h4, h5⟩ := p.finishedAndReason_preserves
    exact ⟨h3, h4, h5⟩
  | result => exact ⟨rfl, rfl, rfl⟩

theorem Vote_sum (p : Poll) (vdr : NodeID) (id : ID) :
    (p.Vote vdr id).votes.Len + (p.Vote vdr id).polled.Len =
      p.votes.Len + p.polled.Len ∧
    (p.Vote vdr id).polled.Len ≤ p.polled.Len := by
  have h1 := Bag.Len_remove_add_count p.polled vdr
  have h2 := Bag.Len_addCount p.votes id (p.polled.Count vdr)
  constructor
  · show (p.votes.AddCount id (p.polled.Count vdr)).Len +
      (p.polled.Remove vdr).Len = p.votes.Len + p.polled.Len
    omega
  · show (p.polled.Remove vdr).Len ≤ p.polled.Len
    omega

theorem Drop_sum (p : Poll) (vdr : NodeID) :
    (p.Drop vdr).votes.Len + (p.Drop vdr).polled.Len ≤
      p.votes.Len + p.polled.Len ∧
    (p.Drop vdr).polled.Len ≤ p.polled.Len := by
  have h1 := Bag.Len_remove_add_count p.polled vdr
  constructor
  · show p.votes.Len + (p.polled.Remove vdr).Len ≤ p.votes.Len + p.polled.Len
    omega
  · show (p.polled.Remove vdr).Len ≤ p.polled.Len
    omega

theorem stepOp_sum (p : Poll) (op : Op) :
    (stepOp p op).votes.Len + (stepOp p op).polled.Len ≤
      p.votes.Len + p.polled.Len ∧
    (stepOp p op).polled.Len ≤ p.polled.Len := by
  cases op with
  | vote vdr id =>
    obtain ⟨h1, h2⟩ := p.Vote_sum vdr id
    exact ⟨le_of_eq h1, h2⟩
  | drop vdr => exact p.Drop_sum vdr
  | finished =>
    obtain ⟨h1, h2, _⟩ := p.finishedAndReason_preserves
    rw [show stepOp p .finished = p.finishedAndReason.1 from rfl, h1, h2]
    exact ⟨le_refl _, le_refl _⟩
  | result => exact ⟨le_refl _, le_refl _⟩

theorem run_sum (p : Poll) (ops : List Op) :
    (run p ops).votes.Len + (run p ops).polled.Len ≤
      p.votes.Len + p.polled.Len ∧
    (run p ops).polled.Len ≤ p.polled.Len := by
  induction ops generalizing p with
  | nil => exact ⟨le_refl _, le_refl _⟩
  | cons op rest ih =>
    obtain ⟨h1, h2⟩ := p.stepOp_sum op
    obtain ⟨h3, h4⟩ := ih (stepOp p op)
    exact ⟨le_trans h3 h1, le_trans h4 h2⟩

end Poll

theorem gapScan_any_iff (C : List Nat) (freq m : Nat) :
    ((List.range (C.length - 1)).any fun i =>
        decide (freq ≥ C.getD i 0) && decide (m < C.getD (i + 1) 0)) = true ↔
      ∃ i, i < C.length - 1 ∧ freq ≥ C.getD i 0 ∧ m < C.getD (i + 1) 0 := by
  simp [List.any_eq_true, List.mem_range]

theorem finishedAndReason_snd_single (p : Poll)
    (hconf : p.confidences = []) (hfin : p.finished = false) :
    p.finishedAndReason.2 =
      singleThresholdOutcome p.polled.Len p.votes.Len p.votes.ModeFreq
        p.alphaPreference p.alphaConfidence := by
  unfold Poll.finishedAndReason singleThresholdOutcome
  rw [hfin, hconf]
  simp only [Bool.false_eq_true, if_false, List.length_nil,
    lt_irrefl, ge_iff_le]
  split_ifs <;> rfl

/-- C1: in single-threshold mode (empty `confidences`), on a poll that has
not latched `finished`, `finishedAndReason` returns exactly the four-rule
cascade — exhausted, early fail, early alpha-preference, early
alpha-confidence, evaluated in that order with the first match as the
recorded reason — and `false` otherwise; the mode frequency of an empty
vote bag is 0. -/
theorem single_threshold_finished_cascade (p : Poll)
    (hconf : p.confidences = []) (hfin : p.finished = false) :
    p.finishedAndReason.2 =
      singleThresholdOutcome p.polled.Len p.votes.Len p.votes.ModeFreq
        p.alphaPreference p.alphaConfidence ∧
    (p.votes.Len = 0 → p.votes.ModeFreq = 0) := by
  refine ⟨finishedAndReason_snd_single p hconf hfin, ?_⟩
  intro h
  have hnil : p.votes = [] := List.length_eq_zero.mp h
  rw [hnil]
  rfl

theorem single_threshold_finished_cascade_witness :
    (mkPoll 15 15 [] [1, 2]).finishedAndReason.2 =
      singleThresholdOutcome (Bag.Len (mkPoll 15 15 [] [1, 2]).polled)
        (Bag.Len (mkPoll 15 15 [] [1, 2]).votes)
        (Bag.ModeFreq (mkPoll 15 15 [] [1, 2]).votes) 15 15 ∧
    (Bag.Len (mkPoll 15 15 [] [1, 2]).votes = 0 →
      Bag.ModeFreq (mkPoll 15 15 [] [1, 2]).votes = 0) :=
  single_threshold_finished_cascade (mkPoll 15 15 [] [1, 2]) rfl rfl

theorem finishedAndReason_snd_errDriven (p : Poll)
    (hconf : p.confidences ≠ []) (hfin : p.finished = false) :
    p.finishedAndReason.2 =
      errDrivenOutcome p.polled.Len p.votes.Len p.votes.ModeFreq
        p.alphaPreference p.confidences := by
  have hlen : 0 < p.confidences.length := List.length_pos.mpr hconf
  unfold Poll.finishedAndReason Poll.shouldTerminateEarlyErrDriven
    errDrivenOutcome
  rw [hfin]
  simp only [Bool.false_eq_true, if_false, hlen, if_true, ge_iff_le]
  simp only [← gapScan_any_iff]
  split_ifs <;> simp_all

/-- C2: in error-driven mode (non-empty `confidences C`), on a poll that
has not latched `finished`, `finishedAndReason` first applies the
exhausted and early-fail rules and then the cascade: early
alpha-confidence when `freq ≥ C[last]`; not finished when
`freq < alphaPreference`; early alpha-preference when
`maxPossible < C[0]` or when some adjacent-threshold gap
`freq ≥ C[i] ∧ maxPossible < C[i+1]` exists; otherwise not finished. -/
theorem err_driven_finished_cascade (p : Poll)
    (hconf : p.confidences ≠ []) (hfin : p.finished = false) :
    p.finishedAndReason.2 =
      errDrivenOutcome p.polled.Len p.votes.Len p.votes.ModeFreq
        p.alphaPreference p.confidences :=
  finishedAndReason_snd_errDriven p hconf hfin

theorem err_driven_finished_cascade_witness :
    (mkPoll 12 18 [12, 18] [1, 2]).finishedAndReason.2 =
      errDrivenOutcome (Bag.Len (mkPoll 12 18 [12, 18] [1, 2]).polled)
        (Bag.Len (mkPoll 12 18 [12, 18] [1, 2]).votes)
        (Bag.ModeFreq (mkPoll 12 18 [12, 18] [1, 2]).votes) 12 [12, 18] :=
  err_driven_finished_cascade (mkPoll 12 18 [12, 18] [1, 2])
    (by decide) rfl

/-- C3 counterexample: the source's `Vote` and `Drop` do not consult the
`finished` latch.  With `alphaPreference = alphaConfidence = 1` and two
outstanding validators, the first vote latches `finished` via early
alpha-confidence while validator 2 is still outstanding; a subsequent
`Vote` by validator 2 then changes both the votes and the outstanding
multisets, so the claimed no-op property fails. -/
theorem vote_after_finished_mutates :
    (((mkPoll 1 1 [] [1, 2]).Vote 1 10).finishedAndReason.1).finished =
      true ∧
    ((((mkPoll 1 1 [] [1, 2]).Vote 1 10).finishedAndReason.1).Vote 2 20).votes ≠
      (((mkPoll 1 1 [] [1, 2]).Vote 1 10).finishedAndReason.1).votes ∧
    ((((mkPoll 1 1 [] [1, 2]).Vote 1 10).finishedAndReason.1).Vote 2 20).polled ≠
      (((mkPoll 1 1 [] [1, 2]).Vote 1 10).finishedAndReason.1).polled := by
  decide

/-- C3 amended: after `finished` has latched true, `Vote(vdr, id)` and
`Drop(vdr)` are no-ops (leaving the whole state unchanged) exactly when
`vdr` is no longer in the outstanding multiset; a still-outstanding
validator mutates the state exactly as before the latch (`Vote` moves its
outstanding count onto the vote id, `Drop` removes it); the latch itself
is never cleared, so `Finished()` keeps returning true. -/
theorem vote_drop_after_finished (p : Poll) (vdr : NodeID) (id : ID)
    (hfin : p.finished = true) :
    (p.polled.Count vdr = 0 → p.Vote vdr id = p ∧ p.Drop vdr = p) ∧
    (p.Vote vdr id).polled = p.polled.Remove vdr ∧
    (p.Vote vdr id).votes = p.votes.AddCount id (p.polled.Count vdr) ∧
    (p.Drop vdr).polled = p.polled.Remove vdr ∧
    ((p.Vote vdr id).finishedAndReason.2.1 = true ∧
      (p.Drop vdr).finishedAndReason.2.1 = true) := by
  refine ⟨?_, rfl, rfl, rfl, ?_, ?_⟩
  · intro h0
    constructor
    · show ({ p with
                polled := p.polled.Remove vdr
                votes := p.votes.AddCount id (p.polled.Count vdr) } : Poll) = p
      rw [h0, Bag.addCount_zero, Bag.remove_of_count_zero p.polled vdr h0]
    · show ({ p with polled := p.polled.Remove vdr } : Poll) = p
      rw [Bag.remove_of_count_zero p.polled vdr h0]
  · have : (p.Vote vdr id).finished = true := hfin
    rw [Poll.finishedAndReason_of_finished _ this]
  · have : (p.Drop vdr).finished = true := hfin
    rw [Poll.finishedAndReason_of_finished _ this]

theorem vote_drop_after_finished_witness :
    ((((mkPoll 1 1 [] [1, 2]).Vote 1 10).finishedAndReason.1).polled.Count 1 = 0 →
      (((mkPoll 1 1 [] [1, 2]).Vote 1 10).finishedAndReason.1).Vote 1 10 =
        ((mkPoll 1 1 [] [1, 2]).Vote 1 10).finishedAndReason.1 ∧
      (((mkPoll 1 1 [] [1, 2]).Vote 1 10).finishedAndReason.1).Drop 1 =
        ((mkPoll 1 1 [] [1, 2]).Vote 1 10).finishedAndReason.1) ∧
    ((((mkPoll 1 1 [] [1, 2]).Vote 1 10).finishedAndReason.1).Vote 1 10).polled =
      (((mkPoll 1 1 [] [1, 2]).Vote 1 10).finishedAndReason.1).polled.Remove 1 ∧
    ((((mkPoll 1 1 [] [1, 2]).Vote 1 10).finishedAndReason.1).Vote 1 10).votes =
      (((mkPoll 1 1 [] [1, 2]).Vote 1 10).finishedAndReason.1).votes.AddCount 10
        ((((mkPoll 1 1 [] [1, 2]).Vote 1 10).finishedAndReason.1).polled.Count 1) ∧
    ((((mkPoll 1 1 [] [1, 2]).Vote 1 10).finishedAndReason.1).Drop 1).polled =
      (((mkPoll 1 1 [] [1, 2]).Vote 1 10).finishedAndReason.1).polled.Remove 1 ∧
    (((((mkPoll 1 1 [] [1, 2]).Vote 1 10).finishedAndReason.1).Vote 1 10).finishedAndReason.2.1 = true ∧
      ((((mkPoll 1 1 [] [1, 2]).Vote 1 10).finishedAndReason.1).Drop 1).finishedAndReason.2.1 = true) :=
  vote_drop_after_finished ((mkPoll 1 1 [] [1, 2]).Vote 1 10).finishedAndReason.1
    1 10 (by decide)

/-- C4: `Vote(vdr, id)` moves the validator's whole outstanding count `c`
onto the vote id: `vdr` is zeroed in `outstanding`, other validators keep
their counts, `votes.Count id` grows by exactly `c`, other vote counts are
unchanged; when `c = 0` the votes multiset is unchanged, and in particular
a second `Vote` by the same validator contributes nothing. -/
theorem vote_moves_outstanding_count (p : Poll) (vdr : NodeID) (id : ID) :
    (p.Vote vdr id).polled.Count vdr = 0 ∧
    (∀ w, w ≠ vdr → (p.Vote vdr id).polled.Count w = p.polled.Count w) ∧
    (p.Vote vdr id).votes.Count id =
      p.votes.Count id + p.polled.Count vdr ∧
    (∀ j, j ≠ id → (p.Vote vdr id).votes.Count j = p.votes.Count j) ∧
    (p.polled.Count vdr = 0 → (p.Vote vdr id).votes = p.votes) ∧
    (∀ id2, ((p.Vote vdr id).Vote vdr id2).votes = (p.Vote vdr id).votes) := by
  refine ⟨Bag.count_remove_self p.polled vdr,
    fun w hw => Bag.count_remove_other p.polled vdr w hw,
    Bag.count_addCount_self p.votes id (p.polled.Count vdr),
    fun j hj => Bag.count_addCount_other p.votes id j _ hj,
    fun h0 => ?_, fun id2 => ?_⟩
  · show p.votes.AddCount id (p.polled.Count vdr) = p.votes
    rw [h0, Bag.addCount_zero]
  · show ((p.Vote vdr id).votes).AddCount id2
        ((p.Vote vdr id).polled.Count vdr) = (p.Vote vdr id).votes
    rw [show (p.Vote vdr id).polled = p.polled.Remove vdr from rfl,
      Bag.count_remove_self, Bag.addCount_zero]

theorem vote_moves_outstanding_count_witness :
    ((mkPoll 15 15 [] [1, 2]).Vote 1 10).polled.Count 1 = 0 ∧
    (∀ w, w ≠ 1 →
      ((mkPoll 15 15 [] [1, 2]).Vote 1 10).polled.Count w =
        (mkPoll 15 15 [] [1, 2]).polled.Count w) ∧
    ((mkPoll 15 15 [] [1, 2]).Vote 1 10).votes.Count 10 =
      (mkPoll 15 15 [] [1, 2]).votes.Count 10 +
        (mkPoll 15 15 [] [1, 2]).polled.Count 1 ∧
    (∀ j, j ≠ 10 →
      ((mkPoll 15 15 [] [1, 2]).Vote 1 10).votes.Count j =
        (mkPoll 15 15 [] [1, 2]).votes.Count j) ∧
    ((mkPoll 15 15 [] [1, 2]).polled.Count 1 = 0 →
      ((mkPoll 15 15 [] [1, 2]).Vote 1 10).votes =
        (mkPoll 15 15 [] [1, 2]).votes) ∧
    (∀ id2, (((mkPoll 15 15 [] [1, 2]).Vote 1 10).Vote 1 id2).votes =
      ((mkPoll 15 15 [] [1, 2]).Vote 1 10).votes) :=
  vote_moves_outstanding_count (mkPoll 15 15 [] [1, 2]) 1 10

/-- C5: for a poll seeded with an outstanding multiset of total length
`k = vdrs.Len`, after any call sequence `votes.Len + polled.Len ≤ k`;
the sum is non-increasing under every single operation, `Vote` preserves
it exactly, and `polled.Len` itself is non-increasing under every
operation. -/
theorem bounded_accumulation (ap ac : Nat) (C : List Nat)
    (vdrs : Bag NodeID) (ops : List Op) :
    (run (mkPoll ap ac C vdrs) ops).votes.Len +
      (run (mkPoll ap ac C vdrs) ops).polled.Len ≤ vdrs.Len ∧
    (∀ (p : Poll) (op : Op),
      (stepOp p op).votes.Len + (stepOp p op).polled.Len ≤
        p.votes.Len + p.polled.Len) ∧
    (∀ (p : Poll) (vdr : NodeID) (id : ID),
      (p.Vote vdr id).votes.Len + (p.Vote vdr id).polled.Len =
        p.votes.Len + p.polled.Len) ∧
    (∀ (p : Poll) (op : Op), (stepOp p op).polled.Len ≤ p.polled.Len) := by
  refine ⟨?_, fun p op => (p.stepOp_sum op).1,
    fun p vdr id => (p.Vote_sum vdr id).1,
    fun p op => (p.stepOp_sum op).2⟩
  have h := Poll.run_sum (mkPoll ap ac C vdrs) ops
  have h0 : (mkPoll ap ac C vdrs).votes.Len +
      (mkPoll ap ac C vdrs).polled.Len = vdrs.Len := by
    simp [mkPoll, Bag.Len]
  omega

/-- C6: the `finished` flag latches — once `finishedAndReason` has
returned true, it returns true after any further operations — and over a
poll's lifetime at most one metric observation is emitted (the `observed`
list of reason-counter-plus-duration events never exceeds one entry),
emitted exactly at the transition: the call that first returns true from
an unlatched state pushes exactly one observation, a call returning false
leaves the state untouched, and a call on an already-latched poll changes
nothing. -/
theorem latch_and_metric_exclusivity (ap ac : Nat) (C : List Nat)
    (vdrs : Bag NodeID) (ops : List Op) :
    (run (mkPoll ap ac C vdrs) ops).observed.length ≤ 1 ∧
    (∀ p : Poll, p.finishedAndReason.2.1 = true →
      ∀ rest : List Op,
        ((run p.finishedAndReason.1 rest).finishedAndReason).2.1 = true) ∧
    (∀ p : Poll, p.finished = true → p.finishedAndReason = (p, true, 0)) ∧
    (∀ p : Poll, p.finished = false → p.finishedAndReason.2.1 = true →
      (p.finishedAndReason.1).observed =
          p.finishedAndReason.2.2 :: p.observed ∧
        (p.finishedAndReason.1).finished = true) ∧
    (∀ p : Poll, p.finishedAndReason.2.1 = false →
      p.finishedAndReason.1 = p) := by
  refine ⟨?_, ?_, fun p h => p.finishedAndReason_of_finished h, ?_, ?_⟩
  · have key : ∀ (l : List Op) (p : Poll),
        (p.finished = false → p.observed = []) → p.observed.length ≤ 1 →
        (run p l).observed.length ≤ 1 := by
      intro l
      induction l with
      | nil => intro p h1 h2; exact h2
      | cons op rest ih =>
        intro p h1 h2
        refine ih (stepOp p op) ?_ ?_
        · cases op with
          | vote vdr id => exact fun h => h1 h
          | drop vdr => exact fun h => h1 h
          | result => exact fun h => h1 h
          | finished =>
            intro h
            cases hf : p.finished
            · rcases p.finishedAndReason_cases hf with ⟨he, _⟩ | ⟨he, _⟩
              · rw [show stepOp p .finished = p.finishedAndReason.1 from rfl,
                  he]
                exact h1 hf
              · rw [show stepOp p .finished = p.finishedAndReason.1 from rfl,
                  he] at h
                simp at h
            · rw [show stepOp p .finished = p.finishedAndReason.1 from rfl,
                p.finishedAndReason_of_finished hf] at h
              rw [hf] at h
              simp at h
        · cases op with
          | vote vdr id => exact h2
          | drop vdr => exact h2
          | result => exact h2
          | finished =>
            cases hf : p.finished
            · rcases p.finishedAndReason_cases hf with ⟨he, _⟩ | ⟨he, _⟩
              · rw [show stepOp p .finished = p.finishedAndReason.1 from rfl,
                  he]
                exact h2
              · rw [show stepOp p .finished = p.finishedAndReason.1 from rfl,
                  he]
                simp [h1 hf]
            · rw [show stepOp p .finished = p.finishedAndReason.1 from rfl,
                p.finishedAndReason_of_finished hf]
              exact h2
    exact key ops (mkPoll ap ac C vdrs) (fun _ => rfl) (by simp [mkPoll])
  · intro p h rest
    have hq : (p.finishedAndReason.1).finished = true :=
      p.finishedAndReason_latches h
    have hr : (run p.finishedAndReason.1 rest).finished = true :=
      Poll.run_finished_mono _ rest hq
    rw [Poll.finishedAndReason_of_finished _ hr]
  · intro p h1 h2
    rcases p.finishedAndReason_cases h1 with ⟨_, he⟩ | ⟨he, _⟩
    · rw [he] at h2
      exact absurd h2 (by simp)
    · rw [he]
      exact ⟨rfl, rfl⟩
  · intro p h
    cases hf : p.finished
    · rcases p.finishedAndReason_cases hf with ⟨he, _⟩ | ⟨_, he⟩
      · exact he
      · rw [he] at h
        exact absurd h (by simp)
    · rw [p.finishedAndReason_of_finished hf] at h
      exact absurd h (by simp)

theorem latch_and_metric_exclusivity_witness :
    (run (mkPoll 1 1 [] [1, 2]) [Op.finished, Op.finished]).observed.length ≤ 1 ∧
    (∀ p : Poll, p.finishedAndReason.2.1 = true →
      ∀ rest : List Op,
        ((run p.finishedAndReason.1 rest).finishedAndReason).2.1 = true) ∧
    (∀ p : Poll, p.finished = true → p.finishedAndReason = (p, true, 0)) ∧
    (∀ p : Poll, p.finished = false → p.finishedAndReason.2.1 = true →
      (p.finishedAndReason.1).observed =
          p.finishedAndReason.2.2 :: p.observed ∧
        (p.finishedAndReason.1).finished = true) ∧
    (∀ p : Poll, p.finishedAndReason.2.1 = false →
      p.finishedAndReason.1 = p) :=
  latch_and_metric_exclusivity 1 1 [] [1, 2] [Op.finished, Op.finished]

/-- C8: `NewEarlyTermNoTraversalFactory` fails exactly when the registry
rejects the `poll_count` counter vector or the `poll_duration` gauge
vector registration, wrapping the corresponding registration error (the
counter is registered first); on success, `Factory.New` is total and
yields the seeded poll. -/
theorem factory_construction_errors (ap ac : Nat) (reg : Registerer)
    (acs : List Nat) :
    (∀ e, NewEarlyTermNoTraversalFactory ap ac reg acs =
        .error (.pollCountVectorMetrics e) ↔
      reg.registerPollCountVec = .error e) ∧
    (∀ e, NewEarlyTermNoTraversalFactory ap ac reg acs =
        .error (.pollDurationVectorMetrics e) ↔
      reg.registerPollCountVec = .ok () ∧
        reg.registerPollDurationVec = .error e) ∧
    ((∃ f, NewEarlyTermNoTraversalFactory ap ac reg acs = .ok f) ↔
      reg.registerPollCountVec = .ok () ∧
        reg.registerPollDurationVec = .ok ()) ∧
    (∀ f, NewEarlyTermNoTraversalFactory ap ac reg acs = .ok f →
      ∀ vdrs, f.New vdrs = mkPoll ap ac acs vdrs) := by
  obtain ⟨r1, r2⟩ := reg
  cases r1 <;> cases r2 <;>
    simp [NewEarlyTermNoTraversalFactory, newEarlyTermNoTraversalMetrics,
      Factory.New, mkPoll]

theorem factory_construction_errors_witness :
    (∀ e, NewEarlyTermNoTraversalFactory 15 15 ⟨.ok (), .ok ()⟩ [] =
        .error (.pollCountVectorMetrics e) ↔
      Registerer.registerPollCountVec ⟨.ok (), .ok ()⟩ = .error e) ∧
    (∀ e, NewEarlyTermNoTraversalFactory 15 15 ⟨.ok (), .ok ()⟩ [] =
        .error (.pollDurationVectorMetrics e) ↔
      Registerer.registerPollCountVec ⟨.ok (), .ok ()⟩ = .ok () ∧
        Registerer.registerPollDurationVec ⟨.ok (), .ok ()⟩ = .error e) ∧
    ((∃ f, NewEarlyTermNoTraversalFactory 15 15 ⟨.ok (), .ok ()⟩ [] = .ok f) ↔
      Registerer.registerPollCountVec ⟨.ok (), .ok ()⟩ = .ok () ∧
        Registerer.registerPollDurationVec ⟨.ok (), .ok ()⟩ = .ok ()) ∧
    (∀ f, NewEarlyTermNoTraversalFactory 15 15 ⟨.ok (), .ok ()⟩ [] = .ok f →
      ∀ vdrs, f.New vdrs = mkPoll 15 15 [] vdrs) :=
  factory_construction_errors 15 15 ⟨.ok (), .ok ()⟩ []

theorem head?_eq_headD (C : List Nat) (hC : C ≠ []) :
    C.head? = some (C.headD 0) := by
  cases C with
  | nil => exact absurd rfl hC
  | cons x xs => rfl

theorem getLast?_eq_getLastD (C : List Nat) (hC : C ≠ []) :
    C.getLast? = some (C.getLastD 0) := by
  have h : C.getLast?.isSome := by simp [List.getLast?_isSome, hC]
  obtain ⟨x, hx⟩ := Option.isSome_iff_exists.mp h
  rw [List.getLastD_eq_getLast? 0 C, hx]
  rfl

theorem checkedGapScan_eq (C : List Nat) (freq m : Nat) :
    checkedGapScan C freq m =
      some ((List.range (C.length - 1)).any fun i =>
        decide (freq ≥ C.getD i 0) && decide (m < C.getD (i + 1) 0)) := by
  unfold checkedGapScan
  have key : ∀ L : List Nat, (∀ i ∈ L, i + 1 < C.length) →
      L.foldr (fun i acc =>
        match C[i]?, C[i + 1]?, acc with
        | some ci, some ci1, some rest =>
          some ((decide (freq ≥ ci) && decide (m < ci1)) || rest)
        | _, _, _ => none) (some false) =
      some (L.any fun i =>
        decide (freq ≥ C.getD i 0) && decide (m < C.getD (i + 1) 0)) := by
    intro L
    induction L with
    | nil => intro _; rfl
    | cons x xs ih =>
      intro hL
      have hx1 : x + 1 < C.length := hL x (by simp)
      have hx0 : x < C.length := by omega
      have e1 : C[x]? = some (C.getD x 0) := by
        rw [List.getElem?_eq_getElem hx0,
          List.getD_eq_getElem?_getD C x 0, List.getElem?_eq_getElem hx0]
        rfl
      have e2 : C[x + 1]? = some (C.getD (x + 1) 0) := by
        rw [List.getElem?_eq_getElem hx1,
          List.getD_eq_getElem?_getD C (x + 1) 0,
          List.getElem?_eq_getElem hx1]
        rfl
      rw [List.foldr_cons, ih (fun i hi => hL i (by simp [hi])), e1, e2]
      rfl
  refine key (List.range (C.length - 1)) ?_
  intro i hi
  have := List.mem_range.mp hi
  omega

theorem shouldTerminateChecked_eq (p : Poll) (hC : p.confidences ≠ [])
    (freq m : Nat) :
    p.shouldTerminateEarlyErrDrivenChecked freq m =
      some (p.shouldTerminateEarlyErrDriven freq m) := by
  unfold Poll.shouldTerminateEarlyErrDrivenChecked
    Poll.shouldTerminateEarlyErrDriven
  rw [getLast?_eq_getLastD p.confidences hC, head?_eq_headD p.confidences hC,
    checkedGapScan_eq]
  simp only [Option.some_bind]
  split_ifs <;> rfl

theorem shouldTerminate_false_reason (p : Poll) (freq m : Nat)
    (h : (p.shouldTerminateEarlyErrDriven freq m).1 = false) :
    (p.shouldTerminateEarlyErrDriven freq m).2 = 0 := by
  unfold Poll.shouldTerminateEarlyErrDriven at *
  split_ifs at * <;> simp_all

/-- C9: every confidence-slice access of `finishedAndReason` (positions
`0`, `len-1`, `i`, `i+1` inside `shouldTerminateEarlyErrDriven`, reached
only under the guard `len(confidences) > 0`) is in bounds: the
bounds-checked rendering `finishedAndReasonChecked`, which poisons to
`none` on any out-of-bounds access, returns `some` of the unchecked
decision on every poll state, so `Finished()` is total and never
panics in either mode. -/
theorem finished_total_in_bounds (p : Poll) :
    p.finishedAndReasonChecked = some p.finishedAndReason.2 := by
  cases hfin : p.finished
  case true =>
    simp [Poll.finishedAndReasonChecked, Poll.finishedAndReason, hfin]
  case false =>
    by_cases h1 : p.polled.Len = 0
    · simp [Poll.finishedAndReasonChecked, Poll.finishedAndReason, hfin, h1]
    · by_cases h2 : p.votes.Len + p.polled.Len < p.alphaPreference
      · simp [Poll.finishedAndReasonChecked, Poll.finishedAndReason, hfin,
          h1, h2]
      · by_cases h3 : 0 < p.confidences.length
        · have hC : p.confidences ≠ [] := by
            intro h
            rw [h] at h3
            simp at h3
          simp only [Poll.finishedAndReasonChecked, Poll.finishedAndReason,
            hfin, Bool.false_eq_true, if_false, h1, h2, h3, if_true,
            shouldTerminateChecked_eq p hC]
          rcases hr : p.shouldTerminateEarlyErrDriven p.votes.ModeFreq
            (p.votes.Len + p.polled.Len) with ⟨b, reason⟩
          cases b
          · have h0 : reason = 0 := by
              have hval := shouldTerminate_false_reason p p.votes.ModeFreq
                (p.votes.Len + p.polled.Len)
              rw [hr] at hval
              exact hval rfl
            simp [hr, h0]
          · simp [hr]
        · simp only [Poll.finishedAndReasonChecked, Poll.finishedAndReason,
            hfin, Bool.false_eq_true, if_false, h1, h2, h3, if_true]
          split_ifs <;> rfl

theorem errDriven_ac_pointwise (v : Bag ID) (o : Bag NodeID)
    (ap ac1 ac2 : Nat) (C : List Nat) (fin : Bool) (obs : List Reason)
    (hC : C ≠ []) :
    (Poll.mk v o ap ac2 C fin obs).finishedAndReason.2 =
      (Poll.mk v o ap ac1 C fin obs).finishedAndReason.2 ∧
    (Poll.mk v o ap ac2 C fin obs).finishedAndReason.1 =
      { (Poll.mk v o ap ac1 C fin obs).finishedAndReason.1 with
          alphaConfidence := ac2 } := by
  cases fin
  case true =>
    rw [Poll.finishedAndReason_of_finished (Poll.mk v o ap ac2 C true obs) rfl,
      Poll.finishedAndReason_of_finished (Poll.mk v o ap ac1 C true obs) rfl]
    exact ⟨rfl, rfl⟩
  case false =>
    have h2 : (Poll.mk v o ap ac2 C false obs).finishedAndReason.2 =
        (Poll.mk v o ap ac1 C false obs).finishedAndReason.2 := by
      rw [finishedAndReason_snd_errDriven (Poll.mk v o ap ac2 C false obs)
          hC rfl,
        finishedAndReason_snd_errDriven (Poll.mk v o ap ac1 C false obs)
          hC rfl]
    refine ⟨h2, ?_⟩
    rcases Poll.finishedAndReason_cases (Poll.mk v o ap ac2 C false obs) rfl
      with ⟨ha, hb⟩ | ⟨ha, hb⟩ <;>
      rcases Poll.finishedAndReason_cases (Poll.mk v o ap ac1 C false obs) rfl
        with ⟨hc, hd⟩ | ⟨hc, hd⟩
    · rw [ha, hc]
    · rw [h2, hd] at hb
      cases hb
    · rw [h2, hd] at hb
      cases hb
    · rw [ha, hc, h2]

theorem run_ac_noninterference (ops : List Op) :
    ∀ p : Poll, p.confidences ≠ [] → ∀ ac2 : Nat,
      runOutputs { p with alphaConfidence := ac2 } ops = runOutputs p ops ∧
      run { p with alphaConfidence := ac2 } ops =
        { (run p ops) with alphaConfidence := ac2 } := by
  induction ops with
  | nil => exact fun p _ ac2 => ⟨rfl, rfl⟩
  | cons op rest ih =>
    intro p hC ac2
    cases op with
    | vote vdr id =>
      have hstep : ({ p with alphaConfidence := ac2 } : Poll).Vote vdr id =
          { (p.Vote vdr id) with alphaConfidence := ac2 } := rfl
      obtain ⟨ho, hr⟩ := ih (p.Vote vdr id) hC ac2
      refine ⟨?_, ?_⟩
      · show runOutputs (({ p with alphaConfidence := ac2 } : Poll).Vote vdr id)
          rest = runOutputs (p.Vote vdr id) rest
        rw [hstep, ho]
      · show run (({ p with alphaConfidence := ac2 } : Poll).Vote vdr id) rest =
          { (run (p.Vote vdr id) rest) with alphaConfidence := ac2 }
        rw [hstep, hr]
    | drop vdr =>
      have hstep : ({ p with alphaConfidence := ac2 } : Poll).Drop vdr =
          { (p.Drop vdr) with alphaConfidence := ac2 } := rfl
      obtain ⟨ho, hr⟩ := ih (p.Drop vdr) hC ac2
      refine ⟨?_, ?_⟩
      · show runOutputs (({ p with alphaConfidence := ac2 } : Poll).Drop vdr)
          rest = runOutputs (p.Drop vdr) rest
        rw [hstep, ho]
      · show run (({ p with alphaConfidence := ac2 } : Poll).Drop vdr) rest =
          { (run (p.Drop vdr) rest) with alphaConfidence := ac2 }
        rw [hstep, hr]
    | result =>
      obtain ⟨ho, hr⟩ := ih p hC ac2
      exact ⟨ho, hr⟩
    | finished =>
      obtain ⟨v, o, ap, ac, C, fin, obs⟩ := p
      have hpt := errDriven_ac_pointwise v o ap ac ac2 C fin obs hC
      obtain ⟨h2, h1⟩ := hpt
      have hCpres : ((Poll.mk v o ap ac C fin obs).finishedAndReason.1).confidences
          = C := (Poll.finishedAndReason_preserves _).2.2.2.2
      obtain ⟨ho, hr⟩ := ih (Poll.mk v o ap ac C fin obs).finishedAndReason.1
        (by rw [hCpres]; exact hC) ac2
      refine ⟨?_, ?_⟩
      · show (Poll.mk v o ap ac2 C fin obs).finishedAndReason.2 ::
            runOutputs (Poll.mk v o ap ac2 C fin obs).finishedAndReason.1 rest =
          (Poll.mk v o ap ac C fin obs).finishedAndReason.2 ::
            runOutputs (Poll.mk v o ap ac C fin obs).finishedAndReason.1 rest
        rw [h2, h1, ho]
      · show run (Poll.mk v o ap ac2 C fin obs).finishedAndReason.1 rest =
          { (run (Poll.mk v o ap ac C fin obs).finishedAndReason.1 rest) with
              alphaConfidence := ac2 }
        rw [h1, hr]

/-- C10: in error-driven mode (non-empty `confidences`), the
`alphaConfidence` parameter is never consulted: two polls identical except
for `alphaConfidence` produce, under every call sequence, identical
`Finished()` results and reason codes, identical recorded metric
observations, and identical `Result()` multisets. -/
theorem alphaConfidence_noninterference (ap ac1 ac2 : Nat) (C : List Nat)
    (hC : C ≠ []) (vdrs : Bag NodeID) (ops : List Op) :
    runOutputs (mkPoll ap ac1 C vdrs) ops =
      runOutputs (mkPoll ap ac2 C vdrs) ops ∧
    (run (mkPoll ap ac1 C vdrs) ops).Result =
      (run (mkPoll ap ac2 C vdrs) ops).Result ∧
    (run (mkPoll ap ac1 C vdrs) ops).observed =
      (run (mkPoll ap ac2 C vdrs) ops).observed := by
  obtain ⟨ho, hr⟩ := run_ac_noninterference ops (mkPoll ap ac2 C vdrs) hC ac1
  have he : ({ (mkPoll ap ac2 C vdrs) with alphaConfidence := ac1 } : Poll) =
      mkPoll ap ac1 C vdrs := rfl
  rw [he] at ho hr
  refine ⟨ho, ?_, ?_⟩
  · show (run (mkPoll ap ac1 C vdrs) ops).votes =
      (run (mkPoll ap ac2 C vdrs) ops).votes
    rw [hr]
  · rw [hr]

theorem alphaConfidence_noninterference_witness :
    runOutputs (mkPoll 2 3 [2] [1, 2, 3]) [Op.finished] =
      runOutputs (mkPoll 2 7 [2] [1, 2, 3]) [Op.finished] ∧
    (run (mkPoll 2 3 [2] [1, 2, 3]) [Op.finished]).Result =
      (run (mkPoll 2 7 [2] [1, 2, 3]) [Op.finished]).Result ∧
    (run (mkPoll 2 3 [2] [1, 2, 3]) [Op.finished]).observed =
      (run (mkPoll 2 7 [2] [1, 2, 3]) [Op.finished]).observed :=
  alphaConfidence_noninterference 2 3 7 [2] (by decide) [1, 2, 3]
    [Op.finished]

theorem errDrivenOutcome_singleton (remaining received freq ap ac : Nat)
    (hfr : freq ≤ received) :
    errDrivenOutcome remaining received freq ap [ac] =
      singleThresholdOutcome remaining received freq ap ac := by
  unfold errDrivenOutcome singleThresholdOutcome
  rw [show ([ac] : List Nat).getLastD 0 = ac from rfl,
    show ([ac] : List Nat).headD 0 = ac from rfl,
    show ([ac] : List Nat).length - 1 = 0 from rfl]
  split_ifs <;>
    first
      | rfl
      | (exfalso; omega)

theorem single_conf_pointwise (v : Bag ID) (o : Bag NodeID) (ap ac : Nat)
    (fin : Bool) (obs : List Reason) (hle : ap ≤ ac) :
    (Poll.mk v o ap ac [ac] fin obs).finishedAndReason.2 =
      (Poll.mk v o ap ac [] fin obs).finishedAndReason.2 ∧
    (Poll.mk v o ap ac [ac] fin obs).finishedAndReason.1 =
      { (Poll.mk v o ap ac [] fin obs).finishedAndReason.1 with
          confidences := [ac] } := by
  cases fin
  case true =>
    rw [Poll.finishedAndReason_of_finished (Poll.mk v o ap ac [ac] true obs)
        rfl,
      Poll.finishedAndReason_of_finished (Poll.mk v o ap ac [] true obs) rfl]
    exact ⟨rfl, rfl⟩
  case false =>
    have h2 : (Poll.mk v o ap ac [ac] false obs).finishedAndReason.2 =
        (Poll.mk v o ap ac [] false obs).finishedAndReason.2 := by
      rw [finishedAndReason_snd_errDriven (Poll.mk v o ap ac [ac] false obs)
          (List.cons_ne_nil ac []) rfl,
        finishedAndReason_snd_single (Poll.mk v o ap ac [] false obs) rfl rfl]
      exact errDrivenOutcome_singleton _ _ _ _ _ (Bag.modeFreq_le_Len v)
    refine ⟨h2, ?_⟩
    rcases Poll.finishedAndReason_cases (Poll.mk v o ap ac [ac] false obs) rfl
      with ⟨ha, hb⟩ | ⟨ha, hb⟩ <;>
      rcases Poll.finishedAndReason_cases (Poll.mk v o ap ac [] false obs) rfl
        with ⟨hc, hd⟩ | ⟨hc, hd⟩
    · rw [ha, hc]
    · rw [h2, hd] at hb
      cases hb
    · rw [h2, hd] at hb
      cases hb
    · rw [ha, hc, h2]

theorem run_single_conf (ops : List Op) :
    ∀ (p : Poll) (ac : Nat), p.confidences = [] → p.alphaConfidence = ac →
      p.alphaPreference ≤ ac →
      runOutputs { p with confidences := [ac] } ops = runOutputs p ops ∧
      run { p with confidences := [ac] } ops =
        { (run p ops) with confidences := [ac] } := by
  induction ops with
  | nil => exact fun p ac _ _ _ => ⟨rfl, rfl⟩
  | cons op rest ih =>
    intro p ac h1 h2 h3
    cases op with
    | vote vdr id =>
      have hstep : ({ p with confidences := [ac] } : Poll).Vote vdr id =
          { (p.Vote vdr id) with confidences := [ac] } := rfl
      obtain ⟨ho, hr⟩ := ih (p.Vote vdr id) ac h1 h2 h3
      refine ⟨?_, ?_⟩
      · show runOutputs (({ p with confidences := [ac] } : Poll).Vote vdr id)
          rest = runOutputs (p.Vote vdr id) rest
        rw [hstep, ho]
      · show run (({ p with confidences := [ac] } : Poll).Vote vdr id) rest =
          { (run (p.Vote vdr id) rest) with confidences := [ac] }
        rw [hstep, hr]
    | drop vdr =>
      have hstep : ({ p with confidences := [ac] } : Poll).Drop vdr =
          { (p.Drop vdr) with confidences := [ac] } := rfl
      obtain ⟨ho, hr⟩ := ih (p.Drop vdr) ac h1 h2 h3
      refine ⟨?_, ?_⟩
      · show runOutputs (({ p with confidences := [ac] } : Poll).Drop vdr)
          rest = runOutputs (p.Drop vdr) rest
        rw [hstep, ho]
      · show run (({ p with confidences := [ac] } : Poll).Drop vdr) rest =
          { (run (p.Drop vdr) rest) with confidences := [ac] }
        rw [hstep, hr]
    | result =>
      exact ih p ac h1 h2 h3
    | finished =>
      obtain ⟨v, o, ap, ac0, C, fin, obs⟩ := p
      replace h1 : C = [] := h1
      replace h2 : ac0 = ac := h2
      replace h3 : ap ≤ ac := h3
      subst h1
      rw [← h2] at h3 ⊢
      have hpt := single_conf_pointwise v o ap ac0 fin obs h3
      obtain ⟨hq2, hq1⟩ := hpt
      have hpres := Poll.finishedAndReason_preserves
        (Poll.mk v o ap ac0 [] fin obs)
      obtain ⟨ho, hr⟩ :=
        ih (Poll.mk v o ap ac0 [] fin obs).finishedAndReason.1 ac0
          hpres.2.2.2.2 hpres.2.2.2.1 (by rw [hpres.2.2.1]; exact h3)
      refine ⟨?_, ?_⟩
      · show (Poll.mk v o ap ac0 [ac0] fin obs).finishedAndReason.2 ::
            runOutputs (Poll.mk v o ap ac0 [ac0] fin obs).finishedAndReason.1
              rest =
          (Poll.mk v o ap ac0 [] fin obs).finishedAndReason.2 ::
            runOutputs (Poll.mk v o ap ac0 [] fin obs).finishedAndReason.1
              rest
        rw [hq2, hq1, ho]
      · show run (Poll.mk v o ap ac0 [ac0] fin obs).finishedAndReason.1 rest =
          { (run (Poll.mk v o ap ac0 [] fin obs).finishedAndReason.1
              rest) with confidences := [ac0] }
        rw [hq1, hr]

/-- C7: single-threshold equivalence — with `alphaPreference ≤
alphaConfidence`, a poll in error-driven mode with
`confidences = [alphaConfidence]` produces, for every call sequence, the
same sequence of `Finished()` results and reason codes, the same recorded
metric observations, and the same `Result()` multiset as a poll in
single-threshold mode with the same parameters. -/
theorem single_threshold_equivalence (ap ac : Nat) (hle : ap ≤ ac)
    (vdrs : Bag NodeID) (ops : List Op) :
    runOutputs (mkPoll ap ac [ac] vdrs) ops =
      runOutputs (mkPoll ap ac [] vdrs) ops ∧
    (run (mkPoll ap ac [ac] vdrs) ops).Result =
      (run (mkPoll ap ac [] vdrs) ops).Result ∧
    (run (mkPoll ap ac [ac] vdrs) ops).observed =
      (run (mkPoll ap ac [] vdrs) ops).observed := by
  obtain ⟨ho, hr⟩ := run_single_conf ops (mkPoll ap ac [] vdrs) ac rfl rfl hle
  have he : ({ (mkPoll ap ac [] vdrs) with confidences := [ac] } : Poll) =
      mkPoll ap ac [ac] vdrs := rfl
  rw [he] at ho hr
  refine ⟨ho, ?_, ?_⟩
  · show (run (mkPoll ap ac [ac] vdrs) ops).votes =
      (run (mkPoll ap ac [] vdrs) ops).votes
    rw [hr]
  · rw [hr]

theorem single_threshold_equivalence_witness :
    runOutputs (mkPoll 1 2 [2] [1, 2, 3]) [Op.finished] =
      runOutputs (mkPoll 1 2 [] [1, 2, 3]) [Op.finished] ∧
    (run (mkPoll 1 2 [2] [1, 2, 3]) [Op.finished]).Result =
      (run (mkPoll 1 2 [] [1, 2, 3]) [Op.finished]).Result ∧
    (run (mkPoll 1 2 [2] [1, 2, 3]) [Op.finished]).observed =
      (run (mkPoll 1 2 [] [1, 2, 3]) [Op.finished]).observed :=
  single_threshold_equivalence 1 2 (by decide) [1, 2, 3] [Op.finished]

end AvalanchePoll
